import Mathlib

/-!
Verification development for the shocut keyboard-shortcut library.

The definitions below are a shallow embedding of the TypeScript source:
`src/shortcut_key.ts` (key normalisation), `src/functions.ts` (matching and
context evaluation, newest revision) and `src/index.ts` (the `Shocut` class,
newest revision present in the repository). Strings model JS strings
(BMP code points, one `Char` per UTF-16 unit for all characters involved),
`List` models JS arrays and the insertion-ordered `Map`, and the mutable
`Shocut` instance state is passed explicitly as a `ShocutState` value.
Handlers are modelled by numeric identifiers; invoking a handler is
modelled by recording its identifier.
-/

namespace Shocut

/-- Models the JS `String.prototype.toUpperCase` simple case mapping on a
single character, for the character ranges exercised by this library's
data (ASCII letters and the Cyrillic block used in the repository's own
examples). Characters outside these ranges map to themselves. -/
def jsToUpperChar (c : Char) : Char :=
  if 'a' ≤ c ∧ c ≤ 'z' then Char.ofNat (c.toNat - 32)
  else if 'а' ≤ c ∧ c ≤ 'я' then Char.ofNat (c.toNat - 32)
  else if c = 'ё' then 'Ё'
  else c

/-- Models JS `String.prototype.toUpperCase` (per-character simple mapping). -/
def jsToUpper (s : String) : String :=
  String.mk (s.data.map jsToUpperChar)

/-- Models the JS `String.prototype.toLowerCase` simple case mapping on a
single character (ASCII range; used only to state case-insensitive key
comparison). -/
def jsToLowerChar (c : Char) : Char :=
  if 'A' ≤ c ∧ c ≤ 'Z' then Char.ofNat (c.toNat + 32)
  else c

/-- Models JS `String.prototype.toLowerCase`. -/
def jsToLower (s : String) : String :=
  String.mk (s.data.map jsToLowerChar)

/-- Models JS `String.prototype.startsWith` (written over the character
lists so that it evaluates inside the kernel). -/
def strStartsWith (s pre : String) : Bool :=
  pre.data.isPrefixOf s.data

/-- Models JS `s.charCodeAt(0)`. For the empty string JS yields `NaN`;
every numeric range test on `NaN` is false, which is the behaviour the
value `0` also has for the range tables of this library (no range includes
`0`), so the empty string is mapped to `0`. -/
def charCodeAt0 (s : String) : Nat :=
  match s.data with
  | [] => 0
  | c :: _ => c.toNat

/-- Models JS `s.charAt(n)`: the one-character string at index `n`, or the
empty string when out of range. -/
def charAtStr (s : String) (n : Nat) : String :=
  match s.data.drop n with
  | [] => ""
  | c :: _ => String.mk [c]

/-- Embeds `getShortcutKey` from `src/shortcut_key.ts`.
(`code.indexOf('Key') === 0` is the `startsWith` test.) -/
def getShortcutKey (key code : String) : String :=
  if key.length ≠ 1 then key
  else
    let isNonLatin := charCodeAt0 key ≥ 880
    if isNonLatin ∧ strStartsWith code "Key" ∧ code.length = 4 then charAtStr code 3
    else if isNonLatin ∧ strStartsWith code "Digit" ∧ code.length = 6 then charAtStr code 5
    else jsToUpper key

/-- Embeds `isSymbol` from `src/functions.ts`. -/
def isSymbol (charCode : Nat) : Bool :=
  decide ((32 ≤ charCode ∧ charCode ≤ 47)
    ∨ (91 ≤ charCode ∧ charCode ≤ 96)
    ∨ (123 ≤ charCode ∧ charCode ≤ 126)
    ∨ (160 ≤ charCode ∧ charCode ≤ 191))

/-- Embeds `sanitizeKeyValue` from `src/functions.ts`. -/
def sanitizeKeyValue (key : String) : String :=
  if key.length = 1 then jsToUpper key else key

/-- Embeds `SUPPORTED_MODIFIERS` from `src/index.ts`. Modifier names are
strings at runtime in JS, and invalid names can be passed in, so modifiers
are modelled as strings. -/
def SUPPORTED_MODIFIERS : List String :=
  ["system", "ctrl", "meta", "alt", "shift"]

/-- Embeds `NON_TYPING_KEYS` from `src/index.ts` (with `F_KEYS` unrolled). -/
def NON_TYPING_KEYS : List String :=
  ["Escape", "F1", "F2", "F3", "F4", "F5", "F6", "F7", "F8", "F9", "F10",
   "F11", "F12", "PrintScreen", "Insert"]

/-- One OR-term of a stored context expression: the source type
`ShortcutContext | ShortcutContext[]`, i.e. a single context reference or
an AND-group of references. -/
inductive ContextTerm where
  | single (s : String)
  | group (l : List String)
deriving DecidableEq, Repr

/-- The `if (!Array.isArray(input)) input = [input]` wrapping performed by
`checkContextAndRelation`: the list of references of a term. -/
def termRefs : ContextTerm → List String
  | .single s => [s]
  | .group l => l

/-- The result type of `checkContextAndRelation` (the four string literals
returned by the source). -/
inductive AndRelation where
  | negation
  | inclusion
  | noMatch
  | matchIfSingle
deriving DecidableEq, Repr

/-- Embeds `checkContextAndRelation` from `src/functions.ts` (newest
revision): classifies one AND-group against the active contexts. -/
def checkContextAndRelation (activeContexts : List String) (t : ContextTerm) :
    AndRelation :=
  let input := termRefs t
  let affirmations :=
    (input.filter (fun c => !(strStartsWith c "!"))).map (fun c => activeContexts.contains c)
  let negations :=
    (input.filter (fun c => strStartsWith c "!")).map
      (fun c => activeContexts.contains (c.drop 1))
  if affirmations.contains false then .noMatch
  else
    let isNegation := negations.contains true
    if negations.length > 0 ∧ isNegation = false ∧ affirmations.length = 0 then
      .matchIfSingle
    else if isNegation then .negation
    else .inclusion

/-- The OR-loop of `checkContext`, with the three accumulator variables
`matchFound`, `matchIfSingle` and `hasAffirmativeStatements` of the source
made explicit. Returning `false` models the source's early
`return false` on a `'negation'` term. -/
def checkContextLoop (activeContexts : List String) :
    List ContextTerm → Bool → Bool → Bool → Bool
  | [], matchFound, matchIfSingle, hasAff =>
    if matchIfSingle ∧ hasAff = false then true else matchFound
  | t :: rest, matchFound, matchIfSingle, hasAff =>
    match checkContextAndRelation activeContexts t with
    | .negation => false
    | .inclusion => checkContextLoop activeContexts rest true matchIfSingle true
    | .matchIfSingle => checkContextLoop activeContexts rest matchFound true hasAff
    | .noMatch => checkContextLoop activeContexts rest matchFound matchIfSingle true

/-- Embeds `checkContext` from `src/functions.ts` (newest revision). -/
def checkContext (activeContexts : List String) (inputContext : List ContextTerm) :
    Bool :=
  if inputContext.length = 0 then true
  else checkContextLoop activeContexts inputContext false false false

/-- Embeds `haveSameValues` from `src/lib/array.ts`. -/
def haveSameValues (a b : List String) : Bool :=
  if a.length ≠ b.length then false
  else if a.any (fun v => !(b.contains v)) then false
  else if b.any (fun v => !(a.contains v)) then false
  else true

/-- The mutation block of `checkModifiersMatch`: if the copied `target`
contains `'system'`, remove its first occurrence
(`target.splice(target.indexOf('system'), 1)`, which is `List.erase`) and
push the system key unless already present. -/
def resolveTarget (target : List String) (systemKey : String) : List String :=
  if target.contains "system" then
    let t := target.erase "system"
    if t.contains systemKey then t else t ++ [systemKey]
  else target

/-- Embeds `checkModifiersMatch` from `src/functions.ts`. -/
def checkModifiersMatch (input target : List String) (systemKey : String) : Bool :=
  if target.length = 0 then decide (input.length = 0)
  else
    let target1 := resolveTarget target systemKey
    if input.length ≠ target1.length then false
    else haveSameValues target1 input

/-- Embeds the flat (one-dimensional) behaviour of `dedupe` from
`src/lib/array.ts`: keep the first occurrence of each value. `acc` is the
`output` array being built. -/
def dedupeGo (acc : List String) : List String → List String
  | [] => acc
  | v :: rest => if acc.contains v then dedupeGo acc rest else dedupeGo (acc ++ [v]) rest

/-- `dedupe` on a flat string array. -/
def dedupe (l : List String) : List String := dedupeGo [] l

/-- Embeds `dedupe` from `src/lib/array.ts` applied to a context-expression
array (`Array<string | string[]>`): nested arrays are recursively deduped
and always pushed; plain strings are pushed only when not already present
(`output.includes(val)`, strict equality, never equates a string with an
array). -/
def dedupeTermsGo (acc : List ContextTerm) : List ContextTerm → List ContextTerm
  | [] => acc
  | .group l :: rest => dedupeTermsGo (acc ++ [.group (dedupe l)]) rest
  | .single s :: rest =>
    if acc.contains (.single s) then dedupeTermsGo acc rest
    else dedupeTermsGo (acc ++ [.single s]) rest

/-- `dedupe` on a context-expression array. -/
def dedupeTerms (l : List ContextTerm) : List ContextTerm := dedupeTermsGo [] l

/-- A stored context expression: either an array of OR-terms, or a
predicate over the active contexts (the `Shortcut['context']` union type of
`src/index.ts`). -/
inductive ContextExpr where
  | terms (l : List ContextTerm)
  | pred (f : List String → Bool)

/-- Evaluates a stored context expression at dispatch time. The `terms`
case is `checkContext` from `src/functions.ts`. The `pred` case is
`Modelled from the spec:` the newest `src/index.ts` revision, which
dispatches a predicate context by invoking it with the active contexts, is
absent from the repository snapshot (only its type declarations, docs and
tests are present); per spec §4.3 the predicate is invoked with the
active-context collection and its boolean result returned directly. -/
def checkShortcutContext (activeContexts : List String) : ContextExpr → Bool
  | .terms l => checkContext activeContexts l
  | .pred f => f activeContexts

/-- The `context` option as passed to registration
(`ShortcutOptions['context']` in `src/index.ts`): absent, `false`, a single
string, an array of OR-terms, or a predicate. -/
inductive ContextArg where
  | undef
  | fls
  | str (s : String)
  | arr (l : List ContextTerm)
  | fn (f : List String → Bool)

/-- Embeds `processShortcutContext` from `src/functions.ts` (newest
revision): normalises the registration-time `context` option into the
stored form. The `fn` case is `Modelled from the spec:` the newest
`src/index.ts` revision storing a predicate context verbatim is absent
from the repository snapshot; per spec §4.3 a predicate expression is kept
as-is and invoked at dispatch time. -/
def processShortcutContext : ContextArg → ContextExpr
  | .undef => .terms []
  | .fls => .terms []
  | .str s => .terms [.single s]
  | .arr l => .terms (dedupeTerms l)
  | .fn f => .pred f

/-- A keyboard event, as far as the library reads it: the four modifier
flags together with `key` and `code`. -/
structure KeyEvent where
  ctrlKey : Bool
  metaKey : Bool
  shiftKey : Bool
  altKey : Bool
  key : String
  code : String
deriving Repr

/-- Embeds `getModifiers` from `src/functions.ts`. -/
def getModifiers (e : KeyEvent) : List String :=
  (if e.ctrlKey then ["ctrl"] else [])
    ++ (if e.metaKey then ["meta"] else [])
    ++ (if e.shiftKey then ["shift"] else [])
    ++ (if e.altKey then ["alt"] else [])

/-- A shortcut record as stored internally (the `Shortcut` interface of
`src/index.ts`). The handler callback is modelled by `handlerId`. -/
structure Shortcut where
  key : String
  mod : List String
  context : ContextExpr
  noDefaultPrevent : Bool
  noPropagationStop : Bool
  handlerId : Nat

/-- The `ShortcutMap` of `src/index.ts`: an insertion-ordered map from
dispatch key to the records registered under it, modelled as an
association list without duplicate keys. -/
abbrev ShortcutMap := List (String × List Shortcut)

/-- Embeds `hasNoModShortcuts` from `src/functions.ts`: whether any
context-matching record outside the non-typing keys needs no modifier
other than (possibly) `shift`. -/
def hasNoModShortcuts (shortcuts : ShortcutMap) (activeContexts : List String) :
    Bool :=
  shortcuts.any (fun kv =>
    !(NON_TYPING_KEYS.contains kv.1)
      && kv.2.any (fun s =>
        checkShortcutContext activeContexts s.context
          && (s.mod.length == 0 || (s.mod.filter (fun m => m ≠ "shift")).length == 0)))

/-- The mutable state of a `Shocut` instance (`src/index.ts`): the
shortcut map, the active contexts, the cached typing-optimisation flag and
the resolved system modifier. -/
structure ShocutState where
  shortcuts : ShortcutMap
  activeContexts : List String
  hasNoModShortcutsInActiveCtx : Bool
  systemMod : String

/-- Embeds `validateContexts` from `src/functions.ts`: the first context
name starting with `'!'` raises. The thrown message is returned as the
error value (the source interpolates a trace code which is irrelevant to
the claims and omitted). -/
def validateContexts : List String → Option String
  | [] => none
  | c :: rest =>
    if strStartsWith c "!" then some "Context value must not start with the negation prefix"
    else validateContexts rest

/-- Embeds `Shocut.activateContext`: validate, then push each name not
already active, then recompute the cached flag (`processChanges_`). On a
validation error the state is returned unchanged (the source throws before
any mutation). -/
def activateContext (st : ShocutState) (contexts : List String) :
    Option String × ShocutState :=
  match validateContexts contexts with
  | some e => (some e, st)
  | none =>
    let active := contexts.foldl
      (fun acc c => if acc.contains c then acc else acc ++ [c]) st.activeContexts
    (none, { st with
      activeContexts := active
      hasNoModShortcutsInActiveCtx := hasNoModShortcuts st.shortcuts active })

/-- Embeds `Shocut.setActiveContexts`: validate, replace with the deduped
names, recompute the cached flag. -/
def setActiveContexts (st : ShocutState) (contexts : List String) :
    Option String × ShocutState :=
  match validateContexts contexts with
  | some e => (some e, st)
  | none =>
    let active := dedupe contexts
    (none, { st with
      activeContexts := active
      hasNoModShortcutsInActiveCtx := hasNoModShortcuts st.shortcuts active })

/-- The registration-time shortcut description (`ShortcutOptions` of
`src/index.ts`). The `mod` option's `Modifier | Modifier[] | undefined`
sugar is collapsed through `getArrayFromProp` into a plain list; modifier
names are raw strings since arbitrary strings can be passed at runtime.
The handler is modelled by `handlerId`; the two suppression flags collapse
`boolean | undefined` through `!!`. -/
structure ShortcutOptions where
  key : String
  mod : List String
  context : ContextArg
  noDefaultPrevent : Bool
  noPropagationStop : Bool
  handlerId : Nat

/-- The validation loop body of `Shocut.registerShortcuts`: iterate the
modifiers of one shortcut; an unsupported name raises, and (while any
modifier is being inspected) `shift` combined with a symbol first
character of the key raises. -/
def validateMods (mods : List String) (key : String) : List String → Option String
  | [] => none
  | m :: rest =>
    if !(SUPPORTED_MODIFIERS.contains m) then some ("Invalid modifier " ++ m)
    else if mods.contains "shift" && isSymbol (charCodeAt0 key) then
      some ("Shift is not allowed as a modifier with symbol keys (key: " ++ key ++ ")")
    else validateMods mods key rest

/-- The first validation error over a batch, mirroring the first loop of
`Shocut.registerShortcuts` (which throws before any mutation). -/
def findBatchError : List ShortcutOptions → Option String
  | [] => none
  | s :: rest =>
    match validateMods s.mod s.key s.mod with
    | some e => some e
    | none => findBatchError rest

/-- The second loop body of `Shocut.registerShortcuts`: store one record
under its sanitised key, appending to the key's list (created at the end
of the map when absent, matching JS `Map` insertion order). -/
def registerOne (m : ShortcutMap) (s : ShortcutOptions) : ShortcutMap :=
  let key := sanitizeKeyValue s.key
  let rec1 : Shortcut :=
    { key := key
      handlerId := s.handlerId
      mod := dedupe s.mod
      context := processShortcutContext s.context
      noDefaultPrevent := s.noDefaultPrevent
      noPropagationStop := s.noPropagationStop }
  if (List.lookup key m).isSome then
    m.map (fun kv => if kv.1 = key then (kv.1, kv.2 ++ [rec1]) else kv)
  else m ++ [(key, [rec1])]

/-- Embeds `Shocut.registerShortcuts`: validate the whole batch first
(raising leaves the state untouched, since the source's validation loop
precedes all mutation), then store every record and recompute the cached
flag (`processChanges_`). -/
def registerShortcuts (st : ShocutState) (batch : List ShortcutOptions) :
    Option String × ShocutState :=
  match findBatchError batch with
  | some e => (some e, st)
  | none =>
    let m := batch.foldl registerOne st.shortcuts
    (none, { st with
      shortcuts := m
      hasNoModShortcutsInActiveCtx := hasNoModShortcuts m st.activeContexts })

/-- Embeds `Shocut.add`, which forwards to `registerShortcuts`. -/
def add (st : ShocutState) (batch : List ShortcutOptions) :
    Option String × ShocutState :=
  registerShortcuts st batch

/-- Embeds the `Shocut` constructor (without the DOM binding): copy the
active contexts, validate them, then register the initial shortcuts. A
thrown error yields no instance. -/
def shocutNew (activeContexts : List String) (shortcuts : List ShortcutOptions)
    (systemMod : String) : Option String × Option ShocutState :=
  let st0 : ShocutState :=
    { shortcuts := []
      activeContexts := activeContexts
      hasNoModShortcutsInActiveCtx := false
      systemMod := systemMod }
  match validateContexts activeContexts with
  | some e => (some e, none)
  | none =>
    match registerShortcuts st0 shortcuts with
    | (some e, _) => (some e, none)
    | (none, st) => (none, some st)

/-- Whether a stored key passes the `keys` filter of `Shocut.remove`
(after the filter names have been sanitised); an omitted filter passes
every key. -/
def keysMatch (keys : Option (List String)) (k : String) : Bool :=
  match keys with
  | none => true
  | some ks => ks.contains k

/-- The entry loop of `Shocut.remove`: for each map entry whose key passes
the filter, retain the records the anti-filter rejects and count the
removed ones. -/
def removeGo (pred : Shortcut → Bool) (keys : Option (List String)) :
    List (String × List Shortcut) → Nat × List (String × List Shortcut)
  | [] => (0, [])
  | kv :: rest =>
    let r := removeGo pred keys rest
    if keysMatch keys kv.1 then
      let news := kv.2.filter (fun v => !(pred v))
      (kv.2.length - news.length + r.1, (kv.1, news) :: r.2)
    else (r.1, kv :: r.2)

/-- Embeds `Shocut.remove`: sanitise the key filter (the
`string | string[]` sugar collapsed into `Option (List String)`), filter
every matching entry's list with the negated predicate, recompute the
cached flag, and return the total removed count. -/
def remove (st : ShocutState) (pred : Shortcut → Bool)
    (keys : Option (List String)) : Nat × ShocutState :=
  let keys1 := keys.map (fun ks => ks.map sanitizeKeyValue)
  let r := removeGo pred keys1 st.shortcuts
  (r.1, { st with
    shortcuts := r.2
    hasNoModShortcutsInActiveCtx := hasNoModShortcuts r.2 st.activeContexts })

/-- The loop of `Shocut.processShortcut_`: each candidate whose modifiers
and context both match has its handler invoked (recorded by id, in order)
and sets the fired flag; the loop never stops early. -/
def processShortcutGo (modifiers : List String) (systemMod : String)
    (activeContexts : List String) : List Shortcut → Bool → Bool × List Nat
  | [], fired => (fired, [])
  | s :: rest, fired =>
    if checkModifiersMatch modifiers s.mod systemMod
        && checkShortcutContext activeContexts s.context then
      let r := processShortcutGo modifiers systemMod activeContexts rest true
      (r.1, s.handlerId :: r.2)
    else processShortcutGo modifiers systemMod activeContexts rest fired

/-- Embeds `Shocut.processShortcut_` (the event's suppression side effects
are not modelled; the fired handlers are recorded by id). -/
def processShortcut (st : ShocutState) (e : KeyEvent) (keyShortcuts : List Shortcut) :
    Bool × List Nat :=
  processShortcutGo (getModifiers e) st.systemMod st.activeContexts keyShortcuts false

/-- The observable outcome of `Shocut.handleKeydown`: the returned boolean,
the handler invocations in order, and how many shortcut-map lookups were
performed (`0` on the fast path, `2` during full processing). -/
structure HandleResult where
  fired : Bool
  handlers : List Nat
  lookups : Nat
deriving DecidableEq, Repr

/-- Embeds `Shocut.handleKeydown`: the typing fast path returns `false`
with no lookup; otherwise the records under `'code:' + e.code` and under
the normalised key are concatenated and processed. -/
def handleKeydown (st : ShocutState) (e : KeyEvent) : HandleResult :=
  if st.hasNoModShortcutsInActiveCtx || e.ctrlKey || e.metaKey || e.altKey
      || NON_TYPING_KEYS.contains e.code then
    let keyShortcuts :=
      ((List.lookup ("code:" ++ e.code) st.shortcuts).getD [])
        ++ ((List.lookup (getShortcutKey e.key e.code) st.shortcuts).getD [])
    if keyShortcuts.length > 0 then
      let r := processShortcut st e keyShortcuts
      { fired := r.1, handlers := r.2, lookups := 2 }
    else { fired := false, handlers := [], lookups := 2 }
  else { fired := false, handlers := [], lookups := 0 }

/-! Claim-side definitions: these follow the wording of the specification
and of the claims, to be compared with the source-embedded functions
above. -/

/-- Claim side (C1): the term contains at least one unprefixed reference
(an affirmation). -/
def termHasUnprefixed (t : ContextTerm) : Bool :=
  (termRefs t).any (fun c => !(strStartsWith c "!"))

/-- Claim side (C1): some unprefixed reference of the term names a context
not in the active list. -/
def specNoMatch (active : List String) (t : ContextTerm) : Bool :=
  (termRefs t).any (fun c => !(strStartsWith c "!") && !(active.contains c))

/-- Claim side (C1): some `'!'`-prefixed reference of the term names a
context that is in the active list. -/
def specNegMatch (active : List String) (t : ContextTerm) : Bool :=
  (termRefs t).any (fun c => strStartsWith c "!" && active.contains (c.drop 1))

/-- Claim side (C1): the term is not a no-match and some prefixed
reference names an active context — the negation that vetoes the whole
expression. -/
def specVeto (active : List String) (t : ContextTerm) : Bool :=
  !(specNoMatch active t) && specNegMatch active t

/-- Claim side (C1): the term is an inclusion — not a no-match, not a
veto, and it contains at least one unprefixed reference. -/
def specInclusion (active : List String) (t : ContextTerm) : Bool :=
  !(specNoMatch active t) && !(specNegMatch active t) && termHasUnprefixed t

/-- Claim side (C1): the term consists only of non-matching negations. -/
def specPureNegNoMatch (active : List String) (t : ContextTerm) : Bool :=
  (termRefs t).all (fun c => strStartsWith c "!") && !(specNegMatch active t)

/-- Claim side (C1): the final result as the claim words it — false when
some term vetoes; else true when some term is an inclusion; else true when
some term consists only of non-matching negations and no term anywhere
contains an unprefixed reference; else false. -/
def specCheckContext (active : List String) (e : List ContextTerm) : Bool :=
  if e.any (specVeto active) then false
  else if e.any (specInclusion active) then true
  else if e.any (specPureNegNoMatch active) && e.all (fun t => !(termHasUnprefixed t)) then
    true
  else false

/-- Claim side (C3): the resolution of the required modifier list — if it
contains `system`, remove it and add the system key only if not already
present. -/
def specResolve (target : List String) (systemKey : String) : List String :=
  if target.contains "system" then
    let t := target.filter (fun m => m ≠ "system")
    if t.contains systemKey then t else t ++ [systemKey]
  else target

/-- Claim side (C2): a candidate record passes when its modifier match and
its context match both pass. -/
def shortcutPasses (st : ShocutState) (e : KeyEvent) (s : Shortcut) : Bool :=
  checkModifiersMatch (getModifiers e) s.mod st.systemMod
    && checkShortcutContext st.activeContexts s.context

/-- Claim side (C2): the candidate records of an event — every record
stored under `'code:' + e.code` first, followed by every record stored
under the normalised key. -/
def candidates (st : ShocutState) (e : KeyEvent) : List Shortcut :=
  ((List.lookup ("code:" ++ e.code) st.shortcuts).getD [])
    ++ ((List.lookup (getShortcutKey e.key e.code) st.shortcuts).getD [])

/-- Claim side (C8): a stored key matches the raw filter key
case-insensitively (via the JS lower-casing). -/
def specKeyMatchesCI (filterKeys : List String) (k : String) : Bool :=
  filterKeys.any (fun f => jsToLower f == jsToLower k)

/-- Claim side (C8): the number of records the claim says `remove` deletes
for a given filter — all records under case-insensitively matching keys on
which the predicate returns true. -/
def specRemoveCountCI (st : ShocutState) (pred : Shortcut → Bool)
    (filterKeys : List String) : Nat :=
  (st.shortcuts.map (fun kv =>
    if specKeyMatchesCI filterKeys kv.1 then kv.2.countP (fun v => pred v) else 0)).sum

end Shocut

namespace Shocut

/-! Helper lemmas. -/

theorem any_mem_congr {α : Type} {l : List α} {p q : α → Bool}
    (h : ∀ x ∈ l, p x = q x) : l.any p = l.any q := by
  induction l with
  | nil => rfl
  | cons a t ih =>
    simp only [List.any_cons, h a (List.mem_cons_self a t)]
    rw [ih (fun x hx => h x (List.mem_cons_of_mem a hx))]

theorem contains_false_eq_any_not (l : List Bool) :
    l.contains false = l.any (fun b => !b) := by
  induction l with
  | nil => rfl
  | cons b t ih => cases b <;> simp_all [List.any_cons, List.contains_cons]

theorem contains_true_eq_any (l : List Bool) :
    l.contains true = l.any (fun b => b) := by
  induction l with
  | nil => rfl
  | cons b t ih => cases b <;> simp_all [List.any_cons, List.contains_cons]

theorem filter_map_contains_false {α : Type} (l : List α) (f : α → Bool)
    (g : α → Bool) :
    ((l.filter f).map g).contains false = l.any (fun c => f c && !(g c)) := by
  rw [contains_false_eq_any_not]
  induction l with
  | nil => rfl
  | cons a t ih => by_cases h : f a <;> simp_all [List.filter_cons, List.any_cons]

theorem filter_map_contains_true {α : Type} (l : List α) (f : α → Bool)
    (g : α → Bool) :
    ((l.filter f).map g).contains true = l.any (fun c => f c && g c) := by
  rw [contains_true_eq_any]
  induction l with
  | nil => rfl
  | cons a t ih => by_cases h : f a <;> simp_all [List.filter_cons, List.any_cons]

theorem filter_map_length_eq_zero {α β : Type} (l : List α) (f : α → Bool)
    (g : α → β) :
    (((l.filter f).map g).length = 0) ↔ l.any f = false := by
  induction l with
  | nil => simp
  | cons a t ih => by_cases h : f a <;> simp_all [List.filter_cons, List.any_cons]

theorem filter_map_length_pos {α β : Type} (l : List α) (f : α → Bool)
    (g : α → β) :
    (((l.filter f).map g).length > 0) ↔ l.any f = true := by
  induction l with
  | nil => simp
  | cons a t ih => by_cases h : f a <;> simp_all [List.filter_cons, List.any_cons]

/-! The per-term characterisation of `checkContextAndRelation` by the
claim-side predicates, for terms with at least one reference. -/

theorem checkContextAndRelation_characterisation (A : List String)
    (t : ContextTerm) (h : termRefs t ≠ []) :
    checkContextAndRelation A t =
      if specNoMatch A t then .noMatch
      else if specNegMatch A t then .negation
      else if termHasUnprefixed t then .inclusion
      else .matchIfSingle := by
  unfold checkContextAndRelation specNoMatch specNegMatch termHasUnprefixed
  dsimp only
  simp only [filter_map_contains_false, filter_map_contains_true,
    filter_map_length_eq_zero, filter_map_length_pos]
  have hx : (termRefs t).any (fun c => !(strStartsWith c "!")) = false →
      (termRefs t).any (fun c => strStartsWith c "!") = true := by
    intro hup
    rcases List.exists_mem_of_ne_nil _ h with ⟨c, hc⟩
    refine List.any_eq_true.mpr ⟨c, hc, ?_⟩
    have hcf := List.any_eq_false.mp hup c hc
    simpa using hcf
  revert hx
  generalize (termRefs t).any (fun c => !(strStartsWith c "!") && !(A.contains c)) = nm
  generalize (termRefs t).any (fun c => strStartsWith c "!" && A.contains (c.drop 1)) = ng
  generalize (termRefs t).any (fun c => !(strStartsWith c "!")) = up
  generalize (termRefs t).any (fun c => strStartsWith c "!") = pf
  intro hx
  cases nm <;> cases ng <;> cases up <;> cases pf <;> simp_all

/-- Closed form of the OR-loop of `checkContext` for arbitrary accumulator
values: a `negation` term anywhere yields false; otherwise the vacuous
negation-only outcome applies only when nothing affirmative was seen, and
the result falls back to whether an inclusion was found. -/
theorem checkContextLoop_formula (A : List String) (E : List ContextTerm)
    (mf mis ha : Bool) :
    checkContextLoop A E mf mis ha =
      if E.any (fun t => decide (checkContextAndRelation A t = .negation)) then false
      else if (mis || E.any (fun t => decide (checkContextAndRelation A t = .matchIfSingle)))
          && !(ha || E.any (fun t => decide (checkContextAndRelation A t = .inclusion)
                || decide (checkContextAndRelation A t = .noMatch))) then true
      else mf || E.any (fun t => decide (checkContextAndRelation A t = .inclusion)) := by
  induction E generalizing mf mis ha with
  | nil => simp [checkContextLoop]
  | cons t rest ih =>
    rcases hrel : checkContextAndRelation A t with _ | _ | _ | _ <;>
      simp [checkContextLoop, hrel, ih, Bool.or_assoc, Bool.or_left_comm,
        Bool.and_assoc, Bool.and_left_comm]

theorem all_eq_not_any_not' {α : Type} (l : List α) (p : α → Bool) :
    l.all p = !(l.any fun x => !(p x)) := by
  induction l with
  | nil => rfl
  | cons a t ih => simp [ih]

theorem specNoMatch_has (A : List String) (t : ContextTerm)
    (h : specNoMatch A t = true) : termHasUnprefixed t = true := by
  unfold specNoMatch at h
  unfold termHasUnprefixed
  rcases List.any_eq_true.mp h with ⟨c, hc, hcc⟩
  simp only [Bool.and_eq_true] at hcc
  exact List.any_eq_true.mpr ⟨c, hc, hcc.1⟩

/-- C1: for a non-empty OR expression whose terms each carry at least one
reference, `checkContext` computes exactly the claim's description: a term
with a failed affirmation is a no-match; otherwise a matching negation in
any term vetoes the whole expression; otherwise a term with an affirmation
is an inclusion; the result is true when some term is an inclusion, else
true when some term consists only of non-matching negations and no term
anywhere has an affirmation, else false. -/
theorem c1_checkContext_claim (A : List String) (E : List ContextTerm)
    (hne : E ≠ []) (hterms : ∀ t ∈ E, termRefs t ≠ []) :
    checkContext A E = specCheckContext A E := by
  have hveto : E.any (fun t => decide (checkContextAndRelation A t = .negation))
      = E.any (specVeto A) := by
    apply any_mem_congr
    intro t ht
    rw [checkContextAndRelation_characterisation A t (hterms t ht)]
    unfold specVeto
    by_cases h1 : specNoMatch A t <;> by_cases h2 : specNegMatch A t <;>
      by_cases h3 : termHasUnprefixed t <;> simp [h1, h2, h3]
  have hincl : E.any (fun t => decide (checkContextAndRelation A t = .inclusion))
      = E.any (specInclusion A) := by
    apply any_mem_congr
    intro t ht
    rw [checkContextAndRelation_characterisation A t (hterms t ht)]
    unfold specInclusion
    by_cases h1 : specNoMatch A t <;> by_cases h2 : specNegMatch A t <;>
      by_cases h3 : termHasUnprefixed t <;> simp [h1, h2, h3]
  have hmis : E.any (fun t => decide (checkContextAndRelation A t = .matchIfSingle))
      = E.any (specPureNegNoMatch A) := by
    apply any_mem_congr
    intro t ht
    rw [checkContextAndRelation_characterisation A t (hterms t ht)]
    unfold specPureNegNoMatch termHasUnprefixed
    rw [all_eq_not_any_not']
    have h13 := specNoMatch_has A t
    unfold termHasUnprefixed at h13
    by_cases h1 : specNoMatch A t <;> by_cases h2 : specNegMatch A t <;>
      by_cases h3 : (termRefs t).any (fun c => !(strStartsWith c "!")) = true <;>
      simp_all
  unfold checkContext
  rw [if_neg (by simpa [List.length_eq_zero] using hne)]
  rw [checkContextLoop_formula]
  simp only [Bool.false_or]
  unfold specCheckContext
  rw [hveto, hincl, hmis]
  by_cases hv : E.any (specVeto A) = true
  · simp [hv]
  · have hv' : E.any (specVeto A) = false := by simpa using hv
    have hnov : ∀ t ∈ E, specVeto A t = false := by
      intro t ht
      have := List.any_eq_false.mp hv' t ht
      simpa using this
    have haff : E.any (fun t => decide (checkContextAndRelation A t = .inclusion)
          || decide (checkContextAndRelation A t = .noMatch))
        = E.any termHasUnprefixed := by
      apply any_mem_congr
      intro t ht
      have hnv := hnov t ht
      unfold specVeto at hnv
      have h13 := specNoMatch_has A t
      rw [checkContextAndRelation_characterisation A t (hterms t ht)]
      by_cases h1 : specNoMatch A t <;> by_cases h2 : specNegMatch A t <;>
        by_cases h3 : termHasUnprefixed t <;> simp_all
    rw [haff]
    have hall : E.all (fun t => !(termHasUnprefixed t)) = !(E.any termHasUnprefixed) := by
      rw [all_eq_not_any_not']
      simp
    rw [hall]
    simp only [hv', Bool.false_eq_true, if_false]
    cases hI : E.any (specInclusion A) <;>
      cases hP : E.any (specPureNegNoMatch A) <;>
      cases hH : E.any termHasUnprefixed <;> simp [hI, hP, hH]

/-- Witness for C1 at a concrete input: active contexts `["a"]` against
the expression `a OR !b` (an inclusion term and a non-matching negation). -/
theorem c1_checkContext_claim_witness :
    checkContext ["a"] [.single "a", .single "!b"]
      = specCheckContext ["a"] [.single "a", .single "!b"] :=
  c1_checkContext_claim ["a"] [.single "a", .single "!b"] (by decide) (by decide)

/-- C10: an empty AND-group evaluates as an inclusion even though it
contains no affirmation, so an expression containing an empty-list OR-term
matches whenever no term of the expression is a matching negation; in
particular `checkContext A [[]]` is true for every active list. -/
theorem c10_emptyAndGroup_inclusion :
    (∀ A : List String, checkContextAndRelation A (.group []) = .inclusion)
    ∧ (∀ (A : List String) (E : List ContextTerm),
        ContextTerm.group [] ∈ E →
        (∀ t ∈ E, checkContextAndRelation A t ≠ .negation) →
        checkContext A E = true)
    ∧ (∀ A : List String, checkContext A [.group []] = true) := by
  have ha : ∀ A : List String, checkContextAndRelation A (.group []) = .inclusion :=
    fun _ => rfl
  refine ⟨ha, fun A E hmem hno => ?_, fun _ => rfl⟩
  unfold checkContext
  rw [if_neg (by simp [List.length_eq_zero, List.ne_nil_of_mem hmem])]
  rw [checkContextLoop_formula]
  have h1 : E.any (fun t => decide (checkContextAndRelation A t = .negation)) = false := by
    rw [List.any_eq_false]
    intro t ht
    simpa using hno t ht
  have h2 : E.any (fun t => decide (checkContextAndRelation A t = .inclusion)) = true :=
    List.any_eq_true.mpr ⟨_, hmem, by simp [ha A]⟩
  have h3 : E.any (fun t => decide (checkContextAndRelation A t = .inclusion)
      || decide (checkContextAndRelation A t = .noMatch)) = true :=
    List.any_eq_true.mpr ⟨_, hmem, by simp [ha A]⟩
  simp [h1, h2, h3]

/-- Witness for C10 at a concrete input: `["x"]` against `[x, []]` (the
empty group is present and no term is a matching negation). -/
theorem c10_emptyAndGroup_inclusion_witness :
    checkContext ["x"] [.single "x", .group []] = true :=
  c10_emptyAndGroup_inclusion.2.1 ["x"] [.single "x", .group []] (by decide) (by decide)

/-- C5: `getShortcutKey` passes multi-character keys through, upper-cases
single characters below code point 880, and for 880 and above falls back
to the letter of a `Key?` code, the digit of a `Digit?` code, or the
upper-cased key; with the claim's four concrete instances. -/
theorem c5_getShortcutKey_claim (key code : String) :
    (key.length ≠ 1 → getShortcutKey key code = key)
    ∧ (key.length = 1 → charCodeAt0 key < 880 →
        getShortcutKey key code = jsToUpper key)
    ∧ (key.length = 1 → charCodeAt0 key ≥ 880 →
        strStartsWith code "Key" = true → code.length = 4 →
        getShortcutKey key code = charAtStr code 3)
    ∧ (key.length = 1 → charCodeAt0 key ≥ 880 →
        strStartsWith code "Digit" = true → code.length = 6 →
        getShortcutKey key code = charAtStr code 5)
    ∧ (key.length = 1 → charCodeAt0 key ≥ 880 →
        ¬(strStartsWith code "Key" = true ∧ code.length = 4) →
        ¬(strStartsWith code "Digit" = true ∧ code.length = 6) →
        getShortcutKey key code = jsToUpper key)
    ∧ getShortcutKey "a" "KeyA" = "A"
    ∧ getShortcutKey "я" "KeyZ" = "Z"
    ∧ getShortcutKey "ArrowUp" "ArrowUp" = "ArrowUp"
    ∧ getShortcutKey "ё" "Backquote" = "Ё" := by
  refine ⟨?_, ?_, ?_, ?_, ?_, by decide, by decide, by decide, by decide⟩
  · intro h1
    simp [getShortcutKey, h1]
  · intro h1 h2
    have h3 : ¬(charCodeAt0 key ≥ 880) := by omega
    simp [getShortcutKey, h1, h3]
  · intro h1 h2 h3 h4
    simp [getShortcutKey, h1, h2, h3, h4]
  · intro h1 h2 h3 h4
    simp [getShortcutKey, h1, h2, h3, h4]
  · intro h1 h2 h3 h4
    simp [getShortcutKey, h1, h2, h3, h4]

/-- Witness for C5: the four claim instances obtained from the theorem's
hypothesis-bearing branches at concrete inputs (including a `Digit` code). -/
theorem c5_getShortcutKey_claim_witness :
    getShortcutKey "ArrowUp" "ArrowUp" = "ArrowUp"
    ∧ getShortcutKey "a" "KeyA" = "A"
    ∧ getShortcutKey "я" "KeyZ" = "Z"
    ∧ getShortcutKey "я" "Digit7" = "7"
    ∧ getShortcutKey "ё" "Backquote" = "Ё" :=
  ⟨(c5_getShortcutKey_claim "ArrowUp" "ArrowUp").1 (by decide),
   (c5_getShortcutKey_claim "a" "KeyA").2.1 (by decide) (by decide),
   (c5_getShortcutKey_claim "я" "KeyZ").2.2.1 (by decide) (by decide) (by decide)
     (by decide),
   (c5_getShortcutKey_claim "я" "Digit7").2.2.2.1 (by decide) (by decide) (by decide)
     (by decide),
   (c5_getShortcutKey_claim "ё" "Backquote").2.2.2.2.1 (by decide) (by decide)
     (by decide) (by decide)⟩

/-- `haveSameValues` holds exactly for lists of equal length with mutual
membership. -/
theorem haveSameValues_iff (a b : List String) :
    haveSameValues a b = true
      ↔ a.length = b.length ∧ (∀ v ∈ a, v ∈ b) ∧ (∀ v ∈ b, v ∈ a) := by
  unfold haveSameValues
  split_ifs with h1 h2 h3
  · simp [h1]
  · refine iff_of_false (by simp) ?_
    rintro ⟨hl, hab, hba⟩
    simp only [List.any_eq_true] at h2
    rcases h2 with ⟨v, hv, hvb⟩
    simp at hvb
    exact hvb (hab v hv)
  · refine iff_of_false (by simp) ?_
    rintro ⟨hl, hab, hba⟩
    simp only [List.any_eq_true] at h3
    rcases h3 with ⟨v, hv, hva⟩
    simp at hva
    exact hva (hba v hv)
  · refine iff_of_true rfl ⟨not_not.mp h1, by simpa using h2, by simpa using h3⟩

/-- For a duplicate-free required list, the source's resolution equals the
claim-side resolution. -/
theorem resolveTarget_eq_specResolve (R : List String) (s : String)
    (hR : R.Nodup) : resolveTarget R s = specResolve R s := by
  unfold resolveTarget specResolve
  by_cases h : R.contains "system" = true
  · have he : R.erase "system" = R.filter (fun m => m ≠ "system") := by
      rw [hR.erase_eq_filter]
      refine List.filter_congr ?_
      intro x _
      by_cases hx : x = "system" <;> simp [hx]
    rw [if_pos h, if_pos h, he]
  · rw [if_neg h, if_neg h]

/-- The claim-side resolution of a duplicate-free list is duplicate-free. -/
theorem specResolve_nodup (R : List String) (s : String) (hR : R.Nodup) :
    (specResolve R s).Nodup := by
  unfold specResolve
  by_cases h : R.contains "system" = true
  · rw [if_pos h]
    by_cases h2 : (R.filter (fun m => m ≠ "system")).contains s = true
    · rw [if_pos h2]
      exact hR.filter _
    · rw [if_neg h2]
      refine List.Nodup.append (hR.filter _) (List.nodup_singleton s) ?_
      intro a ha hs
      rw [List.mem_singleton] at hs
      subst hs
      rcases List.mem_filter.mp ha with ⟨haR, hane⟩
      simp at hane h2
      exact hane (h2 haR)
  · rw [if_neg h]
    exact hR

/-- C3 counterexample: with the duplicate-carrying required list
`["ctrl", "ctrl"]`, the active list `["ctrl"]` equals the claim's
resolution as a set, yet `checkModifiersMatch` returns false — the claim
fails for required lists with duplicates. -/
theorem c3_modifiersMatch_cex :
    List.Nodup ["ctrl"]
    ∧ (∀ m ∈ (["ctrl"] : List String),
        m ∈ (["ctrl", "meta", "alt", "shift"] : List String))
    ∧ "ctrl" ∈ (["ctrl", "meta"] : List String)
    ∧ checkModifiersMatch ["ctrl"] ["ctrl", "ctrl"] "ctrl" = false
    ∧ (∀ m, m ∈ (["ctrl"] : List String)
        ↔ m ∈ specResolve ["ctrl", "ctrl"] "ctrl") := by
  refine ⟨by decide, by decide, by decide, by decide, ?_⟩
  intro m
  show m ∈ (["ctrl"] : List String) ↔ m ∈ (["ctrl", "ctrl"] : List String)
  constructor <;> intro h <;> simp_all

/-- C3 (amended with duplicate-free required lists, as stored records are
after registration-time deduplication): for a duplicate-free list of
concrete active modifiers and a duplicate-free required list,
`checkModifiersMatch` is true exactly when the active list equals, as a
set, the resolution of the required list (`system` removed, the system key
added unless present); an empty required list matches only an empty active
list. -/
theorem c3_modifiersMatch_claim (M R : List String) (s : String)
    (hM : M.Nodup) (hR : R.Nodup)
    (hMc : ∀ m ∈ M, m ∈ (["ctrl", "meta", "alt", "shift"] : List String))
    (hs : s ∈ (["ctrl", "meta"] : List String)) :
    checkModifiersMatch M R s = true ↔ (∀ m, m ∈ M ↔ m ∈ specResolve R s) := by
  unfold checkModifiersMatch
  by_cases h0 : R.length = 0
  · rw [if_pos h0]
    have hnil : R = [] := List.length_eq_zero.mp h0
    subst hnil
    show decide (M.length = 0) = true ↔ ∀ m, m ∈ M ↔ m ∈ ([] : List String)
    simp [List.length_eq_zero, List.eq_nil_iff_forall_not_mem]
  · rw [if_neg h0]
    dsimp only
    rw [resolveTarget_eq_specResolve R s hR]
    have hTnd : (specResolve R s).Nodup := specResolve_nodup R s hR
    by_cases hlen : M.length = (specResolve R s).length
    · rw [if_neg (fun h => h hlen), haveSameValues_iff]
      constructor
      · rintro ⟨_, hab, hba⟩ m
        exact ⟨fun hm => hba m hm, fun hm => hab m hm⟩
      · intro hiff
        exact ⟨hlen.symm, fun v hv => (hiff v).mpr hv, fun v hv => (hiff v).mp hv⟩
    · rw [if_pos hlen]
      refine iff_of_false (by simp) ?_
      intro hiff
      exact hlen ((List.perm_ext_iff_of_nodup hM hTnd).mpr hiff).length_eq

/-- Witness for C3 (amended) at a concrete input:
`ctrl+shift` against required `[shift, system]` on a `ctrl` system. -/
theorem c3_modifiersMatch_claim_witness :
    checkModifiersMatch ["ctrl", "shift"] ["shift", "system"] "ctrl" = true
      ↔ (∀ m, m ∈ (["ctrl", "shift"] : List String)
          ↔ m ∈ specResolve ["shift", "system"] "ctrl") :=
  c3_modifiersMatch_claim ["ctrl", "shift"] ["shift", "system"] "ctrl"
    (by decide) (by decide) (by decide) (by decide)

/-- C4: a predicate context expression is stored as passed, dispatch-time
evaluation returns the predicate's boolean applied to the active contexts,
and the empty stored expression is true for every active list (global
shortcut). -/
theorem c4_predicateContext_claim (A : List String) (p : List String → Bool) :
    processShortcutContext (.fn p) = .pred p
    ∧ checkShortcutContext A (.pred p) = p A
    ∧ checkContext A [] = true :=
  ⟨rfl, rfl, rfl⟩

/-- The candidate loop of `processShortcut_` in closed form: the fired
flag accumulates over the passing candidates, whose handler identifiers
are collected in stored order. -/
theorem processShortcutGo_filter (mods : List String) (sys : String)
    (A : List String) (ks : List Shortcut) (fired : Bool) :
    processShortcutGo mods sys A ks fired =
      (fired || !(ks.filter (fun s => checkModifiersMatch mods s.mod sys
          && checkShortcutContext A s.context)).isEmpty,
        (ks.filter (fun s => checkModifiersMatch mods s.mod sys
          && checkShortcutContext A s.context)).map Shortcut.handlerId) := by
  induction ks generalizing fired with
  | nil => simp [processShortcutGo]
  | cons s rest ih =>
    by_cases h : (checkModifiersMatch mods s.mod sys
        && checkShortcutContext A s.context) = true
    · simp [processShortcutGo, h, ih, List.filter_cons]
    · simp [processShortcutGo, h, ih, List.filter_cons]

/-- C2: `handleKeydown` returns false with no record lookup on the typing
fast path (flag cached false, none of ctrl/meta/alt held, `e.code` not a
special non-typing key); otherwise it evaluates the code-bound records
first and the key-bound records second, fires every candidate passing both
the modifier and the context match without stopping at the first, and
returns true exactly when at least one handler fired. -/
theorem c2_handleKeydown_claim (st : ShocutState) (e : KeyEvent) :
    (st.hasNoModShortcutsInActiveCtx = false → e.ctrlKey = false →
      e.metaKey = false → e.altKey = false →
      NON_TYPING_KEYS.contains e.code = false →
      handleKeydown st e = { fired := false, handlers := [], lookups := 0 })
    ∧ ((st.hasNoModShortcutsInActiveCtx || e.ctrlKey || e.metaKey || e.altKey
        || NON_TYPING_KEYS.contains e.code) = true →
      handleKeydown st e =
        { fired := !((candidates st e).filter (shortcutPasses st e)).isEmpty
          handlers := ((candidates st e).filter (shortcutPasses st e)).map
            Shortcut.handlerId
          lookups := 2 }) := by
  constructor
  · intro h1 h2 h3 h4 h5
    have h5' : e.code ∉ NON_TYPING_KEYS := by simpa using h5
    simp [handleKeydown, h1, h2, h3, h4, h5']
  · intro hcond
    unfold handleKeydown
    rw [if_pos hcond]
    dsimp only
    by_cases hk : candidates st e = []
    · have hlen : ¬(candidates st e).length > 0 := by simp [hk]
      rw [if_neg (by simpa [candidates] using hlen)]
      simp [hk]
    · have hlen : (candidates st e).length > 0 := by
        cases hcand : candidates st e with
        | nil => exact absurd hcand hk
        | cons a t => simp
      rw [if_pos (by simpa [candidates] using hlen)]
      unfold processShortcut
      rw [processShortcutGo_filter]
      unfold candidates shortcutPasses
      simp

/-- Witness for C2: a single ctrl+A shortcut; a plain `a` keystroke takes
the fast path, a ctrl-modified one is dispatched through the filter. -/
theorem c2_handleKeydown_claim_witness :
    handleKeydown ⟨[("A", [⟨"A", ["ctrl"], .terms [], false, false, 5⟩])], [],
        false, "ctrl"⟩ ⟨false, false, false, false, "a", "KeyA"⟩
      = { fired := false, handlers := [], lookups := 0 }
    ∧ handleKeydown ⟨[("A", [⟨"A", ["ctrl"], .terms [], false, false, 5⟩])], [],
        false, "ctrl"⟩ ⟨true, false, false, false, "a", "KeyA"⟩
      = { fired := !((candidates ⟨[("A", [⟨"A", ["ctrl"], .terms [], false, false, 5⟩])],
              [], false, "ctrl"⟩ ⟨true, false, false, false, "a", "KeyA"⟩).filter
              (shortcutPasses ⟨[("A", [⟨"A", ["ctrl"], .terms [], false, false, 5⟩])],
                [], false, "ctrl"⟩ ⟨true, false, false, false, "a", "KeyA"⟩)).isEmpty
          handlers := ((candidates ⟨[("A", [⟨"A", ["ctrl"], .terms [], false, false, 5⟩])],
              [], false, "ctrl"⟩ ⟨true, false, false, false, "a", "KeyA"⟩).filter
              (shortcutPasses ⟨[("A", [⟨"A", ["ctrl"], .terms [], false, false, 5⟩])],
                [], false, "ctrl"⟩ ⟨true, false, false, false, "a", "KeyA"⟩)).map
            Shortcut.handlerId
          lookups := 2 } :=
  ⟨(c2_handleKeydown_claim _ _).1 rfl rfl rfl rfl (by decide),
   (c2_handleKeydown_claim _ _).2 (by decide)⟩

theorem validateMods_isSome (mods : List String) (key : String)
    (l : List String)
    (h : (∃ m ∈ l, m ∉ SUPPORTED_MODIFIERS)
      ∨ (l ≠ [] ∧ "shift" ∈ mods ∧ isSymbol (charCodeAt0 key) = true)) :
    (validateMods mods key l).isSome = true := by
  induction l with
  | nil =>
    rcases h with ⟨m, hm, _⟩ | ⟨hne, _, _⟩
    · exact absurd hm (List.not_mem_nil m)
    · exact absurd rfl hne
  | cons m rest ih =>
    unfold validateMods
    by_cases h1 : SUPPORTED_MODIFIERS.contains m = true
    · rw [if_neg (by simpa using h1)]
      by_cases h2 : (mods.contains "shift" && isSymbol (charCodeAt0 key)) = true
      · rw [if_pos h2]
        rfl
      · rw [if_neg h2]
        apply ih
        rcases h with ⟨m', hm', hm'n⟩ | ⟨_, hsh, hsym⟩
        · rcases List.mem_cons.mp hm' with heq | hmem
          · subst heq
            exact absurd (by simpa using h1) hm'n
          · exact Or.inl ⟨m', hmem, hm'n⟩
        · exact absurd (by simp [hsym]; simpa using hsh) h2
    · rw [if_pos (by simpa using h1)]
      rfl

theorem findBatchError_isSome (batch : List ShortcutOptions)
    (s : ShortcutOptions) (hs : s ∈ batch)
    (hv : (validateMods s.mod s.key s.mod).isSome = true) :
    (findBatchError batch).isSome = true := by
  induction batch with
  | nil => exact absurd hs (List.not_mem_nil s)
  | cons b rest ih =>
    unfold findBatchError
    rcases hb : validateMods b.mod b.key b.mod with _ | e
    · rcases List.mem_cons.mp hs with heq | hmem
      · subst heq
        rw [hb] at hv
        exact absurd hv (by simp)
      · exact ih hmem
    · rfl

/-- C6: `add` raises synchronously when some shortcut of the batch carries
an unsupported modifier name, or combines `shift` with a key whose first
character is in the symbol ranges (keys starting with `'code:'` are exempt
since their first character is not a symbol); and the raising call leaves
the shortcut map and the cached flag exactly as they were — no shortcut of
the batch is registered. -/
theorem c6_add_validation_claim (st : ShocutState)
    (batch : List ShortcutOptions)
    (h : ∃ s ∈ batch,
      (∃ m ∈ s.mod, m ∉ SUPPORTED_MODIFIERS)
      ∨ ("shift" ∈ s.mod ∧ isSymbol (charCodeAt0 s.key) = true
          ∧ strStartsWith s.key "code:" = false)) :
    ∃ err, add st batch = (some err, st) := by
  rcases h with ⟨s, hs, hcase⟩
  have hv : (validateMods s.mod s.key s.mod).isSome = true := by
    apply validateMods_isSome
    rcases hcase with hbad | ⟨hsh, hsym, _⟩
    · exact Or.inl hbad
    · exact Or.inr ⟨List.ne_nil_of_mem hsh, hsh, hsym⟩
  have hf := findBatchError_isSome batch s hs hv
  rcases hfe : findBatchError batch with _ | e
  · rw [hfe] at hf
    exact absurd hf (by simp)
  · refine ⟨e, ?_⟩
    unfold add registerShortcuts
    rw [hfe]

/-- Witness for C6: a batch whose only shortcut binds shift on the symbol
key `$`. -/
theorem c6_add_validation_claim_witness :
    ∃ err, add ⟨[], [], false, "ctrl"⟩
        [⟨"$", ["shift"], .undef, false, false, 0⟩]
      = (some err, ⟨[], [], false, "ctrl"⟩) :=
  c6_add_validation_claim _ _ (by decide)

/-- C9 (the code against the claim, the repository's own test suite and
docs): registration of a modifier name in non-lowercase spelling is
rejected — `SUPPORTED_MODIFIERS.includes` is case-sensitive, so adding a
shortcut with modifier `'Ctrl'` throws `Invalid modifier Ctrl` instead of
accepting it case-insensitively. -/
theorem c9_uppercaseModifier_rejected :
    add ⟨[], [], false, "ctrl"⟩ [⟨"A", ["Ctrl"], .undef, false, false, 0⟩]
      = (some "Invalid modifier Ctrl", ⟨[], [], false, "ctrl"⟩) := rfl

theorem validateContexts_isSome (contexts : List String)
    (h : ∃ c ∈ contexts, strStartsWith c "!" = true) :
    ∃ e, validateContexts contexts = some e := by
  induction contexts with
  | nil =>
    rcases h with ⟨c, hc, _⟩
    exact absurd hc (List.not_mem_nil c)
  | cons c rest ih =>
    unfold validateContexts
    by_cases h1 : strStartsWith c "!" = true
    · rw [if_pos h1]
      exact ⟨_, rfl⟩
    · rw [if_neg h1]
      apply ih
      rcases h with ⟨c', hc', hc'p⟩
      rcases List.mem_cons.mp hc' with heq | hmem
      · subst heq
        exact absurd hc'p h1
      · exact ⟨c', hmem, hc'p⟩

/-- C7 counterexample: the empty context name is accepted silently —
`activateContext`, `setActiveContexts` and the constructor all return no
error for `""` (and `activateContext` even records it as active), against
the claim that an empty name raises. -/
theorem c7_emptyName_cex :
    (activateContext ⟨[], [], false, "ctrl"⟩ [""]).1 = none
    ∧ (activateContext ⟨[], [], false, "ctrl"⟩ [""]).2.activeContexts = [""]
    ∧ (setActiveContexts ⟨[], [], false, "ctrl"⟩ [""]).1 = none
    ∧ (shocutNew [""] [] "ctrl").1 = none :=
  ⟨rfl, rfl, rfl, rfl⟩

/-- C7 (amended): a context name starting with `'!'` raises synchronously
in `activateContext`, `setActiveContexts` and the constructor, and the
failed call leaves the active-context set unchanged (no instance is
produced by the constructor); the empty name, however, is accepted
silently. -/
theorem c7_negationPrefix_claim (st : ShocutState) (contexts : List String)
    (h : ∃ c ∈ contexts, strStartsWith c "!" = true) :
    (∃ e, activateContext st contexts = (some e, st))
    ∧ (∃ e, setActiveContexts st contexts = (some e, st))
    ∧ (∀ (shortcuts : List ShortcutOptions) (sysMod : String),
        ∃ e, shocutNew contexts shortcuts sysMod = (some e, none)) := by
  rcases validateContexts_isSome contexts h with ⟨e, he⟩
  refine ⟨⟨e, ?_⟩, ⟨e, ?_⟩, fun shortcuts sysMod => ⟨e, ?_⟩⟩
  · unfold activateContext
    rw [he]
  · unfold setActiveContexts
    rw [he]
  · unfold shocutNew
    rw [he]

/-- Witness for C7 (amended) at the concrete name `"!a"`. -/
theorem c7_negationPrefix_claim_witness :
    (∃ e, activateContext ⟨[], [], false, "ctrl"⟩ ["!a"]
        = (some e, ⟨[], [], false, "ctrl"⟩))
    ∧ (∃ e, setActiveContexts ⟨[], [], false, "ctrl"⟩ ["!a"]
        = (some e, ⟨[], [], false, "ctrl"⟩))
    ∧ (∀ (shortcuts : List ShortcutOptions) (sysMod : String),
        ∃ e, shocutNew ["!a"] shortcuts sysMod = (some e, none)) :=
  c7_negationPrefix_claim _ _ (by decide)

theorem length_sub_filter_not_length (l : List Shortcut) (p : Shortcut → Bool) :
    l.length - (l.filter (fun v => !(p v))).length = (l.filter p).length := by
  induction l with
  | nil => rfl
  | cons a t ih =>
    have hle := List.length_filter_le (fun v => !(p v)) t
    by_cases h : p a = true <;> simp [List.filter_cons, h] <;> omega

theorem removeGo_spec (pred : Shortcut → Bool) (keys : Option (List String))
    (m : List (String × List Shortcut)) :
    (removeGo pred keys m).2
      = m.map (fun kv => if keysMatch keys kv.1
          then (kv.1, kv.2.filter (fun v => !(pred v))) else kv)
    ∧ (removeGo pred keys m).1
      = (m.map (fun kv => if keysMatch keys kv.1
          then kv.2.countP (fun v => pred v) else 0)).sum := by
  induction m with
  | nil => exact ⟨rfl, rfl⟩
  | cons kv rest ih =>
    by_cases h : keysMatch keys kv.1 = true
    · constructor
      · simp [removeGo, h, ih.1]
      · simp [removeGo, h, ih.2, List.countP_eq_length_filter,
          length_sub_filter_not_length]
    · constructor
      · simp [removeGo, h, ih.1]
      · simp [removeGo, h, ih.2]

/-- C8 counterexample: the key filter is not case-insensitive for
multi-character key names — with one record stored under `"Escape"` and an
always-true predicate, `remove` with filter `["ESCAPE"]` deletes nothing
and returns 0, while the claim's case-insensitive reading requires 1. -/
theorem c8_remove_caseInsensitive_cex :
    (remove ⟨[("Escape", [⟨"Escape", [], .terms [], false, false, 7⟩])], [],
        true, "ctrl"⟩ (fun _ => true) (some ["ESCAPE"])).1 = 0
    ∧ specRemoveCountCI ⟨[("Escape", [⟨"Escape", [], .terms [], false, false, 7⟩])],
        [], true, "ctrl"⟩ (fun _ => true) ["ESCAPE"] = 1
    ∧ (remove ⟨[("Escape", [⟨"Escape", [], .terms [], false, false, 7⟩])], [],
        true, "ctrl"⟩ (fun _ => true) (some ["ESCAPE"])).2.shortcuts
      = [("Escape", [⟨"Escape", [], .terms [], false, false, 7⟩])] :=
  ⟨rfl, rfl, rfl⟩

/-- C8 (amended: the key filter is compared after the same normalisation
applied to stored keys — single-character keys case-insensitively
upper-cased, multi-character key names matched exactly): `remove` applies
the predicate to every record under each matching key (all keys when the
filter is omitted), keeps exactly the records on which the predicate is
false — preserving their stored order — and returns the total number of
deleted records. -/
theorem c8_remove_claim (st : ShocutState) (pred : Shortcut → Bool)
    (okeys : Option (List String)) :
    (remove st pred okeys).2.shortcuts
      = st.shortcuts.map (fun kv =>
          if keysMatch (okeys.map (fun ks => ks.map sanitizeKeyValue)) kv.1
          then (kv.1, kv.2.filter (fun v => !(pred v))) else kv)
    ∧ (remove st pred okeys).1
      = (st.shortcuts.map (fun kv =>
          if keysMatch (okeys.map (fun ks => ks.map sanitizeKeyValue)) kv.1
          then kv.2.countP (fun v => pred v) else 0)).sum := by
  unfold remove
  exact ⟨(removeGo_spec pred _ st.shortcuts).1, (removeGo_spec pred _ st.shortcuts).2⟩

end Shocut
